import Mathlib

/-!
Verification of the task state machine of `src/todo_frontend/src/App.js`
(personal task organizer).

The embedding models JavaScript strings as `List Char` (`JStr`), so that
`trim`, `toLowerCase` and `includes` can be defined structurally and
reasoned about directly.  Tasks are records `{id, text, completed}` with
`id : Nat` (the source assigns `Date.now()`, a natural number of
milliseconds).  Each React handler that transforms the `tasks` state is
embedded as a pure function from the old collection (plus its raw inputs,
with the clock made an explicit argument) to the new collection.
-/

namespace Todo

/-- JavaScript strings, modelled as lists of characters. -/
abbrev JStr := List Char

/-- Left half of `String.prototype.trim`: drop the longest whitespace
prefix. -/
def jsTrimLeft (s : JStr) : JStr := s.dropWhile Char.isWhitespace

/-- Right half of `String.prototype.trim`: drop the longest whitespace
suffix. -/
def jsTrimRight (s : JStr) : JStr := (s.reverse.dropWhile Char.isWhitespace).reverse

/-- JS `s.trim()`: remove leading and trailing whitespace. -/
def jsTrim (s : JStr) : JStr := jsTrimRight (jsTrimLeft s)

/-- JS `s.toLowerCase()`, character by character. -/
def jsToLower (s : JStr) : JStr := s.map Char.toLower

/-- JS `s.includes(sub)`: `sub` occurs contiguously somewhere in `s`. -/
def jsIncludes (s sub : JStr) : Bool :=
  (List.range (s.length + 1)).any (fun i => (s.drop i).take sub.length == sub)

/-- The task record of the source: `{ id, text, completed }`. -/
structure Task where
  id : Nat
  text : JStr
  completed : Bool
deriving DecidableEq

/-- Embeds `handleAddTask` (App.js lines 49-59): if the trimmed input is empty the
call returns without changing `tasks`; otherwise it appends
`{ id: Date.now(), text: input.trim(), completed: false }`.  The clock
reading `Date.now()` is the explicit argument `now`. -/
def handleAddTask (now : Nat) (input : JStr) (tasks : List Task) : List Task :=
  if (jsTrim input).length = 0 then tasks
  else tasks ++ [{ id := now, text := jsTrim input, completed := false }]

/-- Embeds `handleUpdateTask` (App.js lines 69-81): if the trimmed edit input is
empty the edit is cancelled and `tasks` is unchanged; otherwise every task
whose `id` equals `editingId` gets its `text` replaced by the trimmed
input. -/
def handleUpdateTask (editingId : Nat) (editInput : JStr) (tasks : List Task) : List Task :=
  if (jsTrim editInput).length = 0 then tasks
  else tasks.map fun t =>
    if t.id = editingId then { t with text := jsTrim editInput } else t

/-- Embeds `handleDeleteTask` (App.js lines 84-90): keep the tasks whose `id`
differs from the argument. -/
def handleDeleteTask (id : Nat) (tasks : List Task) : List Task :=
  tasks.filter fun t => t.id != id

/-- Embeds `handleToggleComplete` (App.js lines 93-97): flip `completed` on every
task whose `id` equals the argument. -/
def handleToggleComplete (id : Nat) (tasks : List Task) : List Task :=
  tasks.map fun t =>
    if t.id = id then { t with completed := !t.completed } else t

/-- Embeds `filteredTasks` (App.js lines 110-121): filter by the mode string, then
by the trimmed, lower-cased search string when the latter is non-empty. -/
def filteredTasks (filter search : JStr) (tasks : List Task) : List Task :=
  let list := tasks
  let list := if filter = "active".data then list.filter (fun t => !t.completed) else list
  let list := if filter = "completed".data then list.filter (fun t => t.completed) else list
  if 0 < (jsTrim search).length then
    list.filter (fun t => jsIncludes (jsToLower t.text) (jsToLower (jsTrim search)))
  else list

/-- Modelled from the spec: the JSON value trees produced and consumed by
the platform functions `JSON.stringify` / `JSON.parse`, which are not part
of `src/`.  Per spec §6 the stored value is "a JSON-serializable array of
objects shaped `{id: number, text: string, completed: boolean}`"; numbers
are the natural `Date.now()` ids. -/
inductive Json where
  | null
  | bool (b : Bool)
  | num (n : Nat)
  | str (s : JStr)
  | arr (elems : List Json)
  | obj (fields : List (JStr × Json))

/-- Key lookup in a JSON object, first binding wins (as in a JS object
literal read back by `JSON.parse`). -/
def jlookup : List (JStr × Json) → JStr → Option Json
  | [], _ => none
  | (k, v) :: rest, key => if k = key then some v else jlookup rest key

/-- The JSON tree `JSON.stringify` serializes for one task. -/
def encodeTask (t : Task) : Json :=
  .obj [("id".data, .num t.id), ("text".data, .str t.text),
        ("completed".data, .bool t.completed)]

/-- The JSON tree `JSON.stringify` serializes for the whole collection. -/
def encodeTasks (T : List Task) : Json := .arr (T.map encodeTask)

/-- Reading a parsed JSON value back as one task record (the source does
this implicitly, by using the dynamic value's fields). -/
def decodeTask : Json → Option Task
  | .obj fields =>
    match jlookup fields "id".data, jlookup fields "text".data,
          jlookup fields "completed".data with
    | some (.num i), some (.str s), some (.bool b) =>
        some { id := i, text := s, completed := b }
    | _, _, _ => none
  | _ => none

/-- Reading a parsed JSON value back as the task collection. -/
def decodeTasks : Json → Option (List Task)
  | .arr elems => elems.mapM decodeTask
  | _ => none

/-- Modelled from the spec: a string held by the durable store under key
`todo_tasks`.  The platform parser `JSON.parse` is not part of `src/`, so a
stored string is modelled by what that parser does to it: a `wellFormed`
string carries its unique JSON parse tree, a `malformed` string is any text
(carried verbatim) on which `JSON.parse` throws.  The empty string is the
`malformed` value with empty text. -/
inductive StoredString where
  | wellFormed (j : Json)
  | malformed (raw : JStr)

/-- Modelled from the spec: `JSON.parse`, returning the parse tree of a
well-formed string and failing (throwing) on a malformed one. -/
def jsonParse : StoredString → Option Json
  | .wellFormed j => some j
  | .malformed _ => none

/-- JS truthiness test of the stored string: only the empty string is
falsy.  Well-formed JSON text is never empty. -/
def isEmptyString : StoredString → Bool
  | .malformed [] => true
  | _ => false

/-- Embeds `JSON.stringify(tasks)` followed by `localStorage.setItem` (App.js
lines 43-45): the store receives the well-formed serialization of the
collection. -/
def persist (T : List Task) : StoredString := .wellFormed (encodeTasks T)

/-- The load effect (App.js lines 37-40): `getItem` yields `stored`;
`if (stored)` skips both `null` (absent key) and the empty string, leaving
the initial `[]`; otherwise `JSON.parse(stored)` either throws (`none`
below) or yields the value that becomes the `tasks` state. -/
def load (stored : Option StoredString) : Option (List Task) :=
  match stored with
  | none => some []
  | some s =>
    if isEmptyString s then some []
    else
      match jsonParse s with
      | none => none
      | some j => decodeTasks j

/-- The spec §3 constraints on one stored task's text: non-empty, trimmed
(no surrounding whitespace) and at most 120 characters. -/
def TextOk (t : Task) : Prop :=
  t.text ≠ [] ∧ jsTrim t.text = t.text ∧ t.text.length ≤ 120

/-- Collection states reachable in a session: the initial empty collection,
the image of each handler, and reloading what a reachable state persisted.
The raw text for `create` comes from the `todo-input` element and the raw
text for `rename` from the `todo-input-edit` element, both declared with a
`maxLength` of 120 (App.js lines 148-159 and 245-252), so every raw input
carries at most 120 characters. -/
inductive Reachable : List Task → Prop where
  | init : Reachable []
  | create {T : List Task} (now : Nat) (input : JStr)
      (hin : input.length ≤ 120) (h : Reachable T) :
      Reachable (handleAddTask now input T)
  | rename {T : List Task} (editingId : Nat) (editInput : JStr)
      (hin : editInput.length ≤ 120) (h : Reachable T) :
      Reachable (handleUpdateTask editingId editInput T)
  | toggle {T : List Task} (id : Nat) (h : Reachable T) :
      Reachable (handleToggleComplete id T)
  | del {T : List Task} (id : Nat) (h : Reachable T) :
      Reachable (handleDeleteTask id T)
  | reload {T U : List Task} (h : Reachable T)
      (hload : load (some (persist T)) = some U) : Reachable U

/-- The spec's mode predicate (§4.2): `active` keeps only
`completed=false`, `completed` keeps only `completed=true`, anything else
(`all`) keeps everything. -/
def modeKeeps (filter : JStr) (t : Task) : Bool :=
  if filter = "active".data then !t.completed
  else if filter = "completed".data then t.completed
  else true

/-- The spec's search predicate (§4.2): when the trimmed search text is
non-empty, keep tasks whose lower-cased text contains the lower-cased
trimmed search text as a substring; otherwise keep everything. -/
def searchKeeps (search : JStr) (t : Task) : Bool :=
  if 0 < (jsTrim search).length then
    jsIncludes (jsToLower t.text) (jsToLower (jsTrim search))
  else true

/-! Elementary facts about the string model. -/

theorem dropWhile_self (p : Char → Bool) (l : JStr) :
    (l.dropWhile p).dropWhile p = l.dropWhile p := by
  cases h : l.dropWhile p with
  | nil => simp
  | cons a t =>
    have hhead := List.head?_dropWhile_not p l
    rw [h] at hhead
    simp only [List.head?_cons] at hhead
    simp [List.dropWhile_cons, hhead]

theorem dropWhile_cons_eq_false {p : Char → Bool} {a : Char} {l : JStr}
    (h : (a :: l).dropWhile p = a :: l) : p a = false := by
  by_cases hpa : p a
  · exfalso
    rw [List.dropWhile_cons_of_pos hpa] at h
    have hle := (List.dropWhile_sublist (l := l) p).length_le
    rw [h] at hle
    simp at hle
  · simpa using hpa

theorem jsTrimLeft_idem (s : JStr) : jsTrimLeft (jsTrimLeft s) = jsTrimLeft s :=
  dropWhile_self _ s

theorem jsTrimRight_idem (s : JStr) : jsTrimRight (jsTrimRight s) = jsTrimRight s := by
  unfold jsTrimRight
  rw [List.reverse_reverse, dropWhile_self]

theorem jsTrimRight_leading (s : JStr) : jsTrimRight s <+: s := by
  have h : s.reverse.dropWhile Char.isWhitespace <:+ s.reverse :=
    List.dropWhile_suffix Char.isWhitespace
  have h2 := List.reverse_prefix.mpr h
  rw [List.reverse_reverse] at h2
  exact h2

theorem jsTrimLeft_jsTrimRight {s : JStr} (hs : jsTrimLeft s = s) :
    jsTrimLeft (jsTrimRight s) = jsTrimRight s := by
  cases h : jsTrimRight s with
  | nil => rfl
  | cons a t =>
    obtain ⟨r, hr⟩ := jsTrimRight_leading s
    rw [h] at hr
    rw [← hr, List.cons_append] at hs
    have ha := dropWhile_cons_eq_false (p := Char.isWhitespace) hs
    unfold jsTrimLeft
    simp [List.dropWhile_cons, ha]

theorem jsTrim_idem (s : JStr) : jsTrim (jsTrim s) = jsTrim s := by
  unfold jsTrim
  rw [jsTrimLeft_jsTrimRight (jsTrimLeft_idem s), jsTrimRight_idem]

theorem jsTrimLeft_length_le (s : JStr) : (jsTrimLeft s).length ≤ s.length :=
  (List.dropWhile_sublist _).length_le

theorem jsTrimRight_length_le (s : JStr) : (jsTrimRight s).length ≤ s.length :=
  (jsTrimRight_leading s).length_le

theorem jsTrim_length_le (s : JStr) : (jsTrim s).length ≤ s.length :=
  le_trans (jsTrimRight_length_le _) (jsTrimLeft_length_le _)

/-! Serialization round trip. -/

theorem decodeTask_encodeTask (t : Task) : decodeTask (encodeTask t) = some t := rfl

theorem decodeTasks_encodeTasks (T : List Task) :
    decodeTasks (encodeTasks T) = some T := by
  induction T with
  | nil => rfl
  | cons t T ih =>
    have htail : (T.map encodeTask).mapM decodeTask = some T := ih
    simp only [decodeTasks, encodeTasks, List.map_cons, List.mapM_cons,
      decodeTask_encodeTask, htail]
    rfl

/-- Shared helper: loading what `persist` wrote reproduces the collection. -/
theorem load_persist (T : List Task) : load (some (persist T)) = some T :=
  decodeTasks_encodeTasks T

/-! The claims. -/

/-- C1: the claim asserts that ids of stored tasks are pairwise distinct in
every reachable state.  The code assigns `id = Date.now()`, so two create
calls inside the same millisecond (here both clock readings are 1000)
produce a reachable two-element collection whose tasks share the id 1000:
the collection is reachable, both tasks are present with equal text, and
the id list `[1000, 1000]` is not duplicate-free. -/
theorem C1_id_collision_on_same_millisecond :
    Reachable (handleAddTask 1000 ("Call mom".data)
        (handleAddTask 1000 ("Call mom".data) [])) ∧
    (handleAddTask 1000 ("Call mom".data)
        (handleAddTask 1000 ("Call mom".data) [])).map Task.id = [1000, 1000] ∧
    ¬ ((handleAddTask 1000 ("Call mom".data)
        (handleAddTask 1000 ("Call mom".data) [])).map Task.id).Nodup ∧
    (handleAddTask 1000 ("Call mom".data)
        (handleAddTask 1000 ("Call mom".data) [])).map Task.text
      = ["Call mom".data, "Call mom".data] := by
  refine ⟨Reachable.create 1000 _ (by decide)
      (Reachable.create 1000 _ (by decide) Reachable.init), ?_, ?_, ?_⟩ <;> decide

/-- C2 counterexample: with the single stored string `"{"` — present but
not parsable as JSON — `load` fails (`JSON.parse` throws) instead of
yielding the empty collection. -/
theorem C2_load_counterexample :
    load (some (StoredString.malformed ("\x7b".data))) = none ∧
    load (some (StoredString.malformed ("\x7b".data))) ≠ some [] := by decide

/-- C2 amended: `load` yields the empty collection when the stored value is
absent or is the empty string (both falsy under `if (stored)`); when the
stored value is a non-empty string that is not parsable as JSON, the parse
error propagates and `load` fails instead of yielding the empty
collection. -/
theorem C2_load_amended :
    load none = some [] ∧
    load (some (StoredString.malformed [])) = some [] ∧
    ∀ raw : JStr, raw ≠ [] →
      load (some (StoredString.malformed raw)) = none := by
  refine ⟨rfl, rfl, ?_⟩
  intro raw hne
  cases raw with
  | nil => exact absurd rfl hne
  | cons a t => rfl

theorem C2_load_amended_witness :
    ("\x7b".data ≠ ([] : JStr)) ∧
    load (some (StoredString.malformed ("\x7b".data))) = none :=
  ⟨by decide, C2_load_amended.2.2 ("\x7b".data) (by decide)⟩

/-- C3: for a string whose trimmed form is non-empty (and within the
120-character bound), `create` appends exactly one task: the size grows by
one, the first `|T|` elements are `T` unchanged, and the last element is a
new task with the trimmed text and `completed = false`. -/
theorem C3_create_appends (now : Nat) (s : JStr) (T : List Task)
    (hne : jsTrim s ≠ []) (hlen : (jsTrim s).length ≤ 120) :
    (handleAddTask now s T).length = T.length + 1 ∧
    (handleAddTask now s T).take T.length = T ∧
    (handleAddTask now s T).getLast?
      = some { id := now, text := jsTrim s, completed := false } := by
  have hg : ¬ (jsTrim s).length = 0 := by simpa [List.length_eq_zero] using hne
  unfold handleAddTask
  rw [if_neg hg]
  exact ⟨by simp, List.take_left T _, List.getLast?_concat T⟩

theorem C3_create_appends_witness :
    jsTrim (" Call mom ".data) ≠ [] ∧
    (jsTrim (" Call mom ".data)).length ≤ 120 ∧
    ((handleAddTask 5 (" Call mom ".data) []).length = ([] : List Task).length + 1 ∧
     (handleAddTask 5 (" Call mom ".data) []).take ([] : List Task).length = [] ∧
     (handleAddTask 5 (" Call mom ".data) []).getLast?
       = some { id := 5, text := jsTrim (" Call mom ".data), completed := false }) :=
  ⟨by decide, by decide, C3_create_appends 5 (" Call mom ".data) [] (by decide) (by decide)⟩

/-- C4: for a string whose trimmed form is empty, `create` leaves the
collection unchanged and `rename` (for any target id) leaves the collection
— in particular every task's text — unchanged: the edit is cancelled, not
applied as a clear. -/
theorem C4_blank_input_is_noop (s : JStr) (h : jsTrim s = [])
    (now editingId : Nat) (T : List Task) :
    handleAddTask now s T = T ∧ handleUpdateTask editingId s T = T := by
  constructor <;> simp [handleAddTask, handleUpdateTask, h]

theorem C4_blank_input_is_noop_witness :
    jsTrim ("   ".data) = [] ∧
    (handleAddTask 9 ("   ".data) [{ id := 1, text := "Buy milk".data, completed := false }]
        = [{ id := 1, text := "Buy milk".data, completed := false }] ∧
     handleUpdateTask 1 ("   ".data) [{ id := 1, text := "Buy milk".data, completed := false }]
        = [{ id := 1, text := "Buy milk".data, completed := false }]) :=
  ⟨by decide, C4_blank_input_is_noop ("   ".data) (by decide) 9 1 _⟩

theorem filter_filter_comm (p q : Task → Bool) (l : List Task) :
    (l.filter q).filter p = l.filter fun a => q a && p a := by
  rw [List.filter_filter]
  exact List.filter_congr fun a _ => by rw [Bool.and_comm]

/-- C5: the view is exactly the input collection filtered by the
conjunction of the mode predicate and the search predicate — a single pass
of `List.filter`, hence also in the input's relative order. -/
theorem C5_filteredTasks_characterization (filter search : JStr)
    (tasks : List Task) :
    filteredTasks filter search tasks
      = tasks.filter fun t => modeKeeps filter t && searchKeeps search t := by
  simp only [filteredTasks]
  by_cases hact : filter = "active".data
  · have hcomp : ¬ filter = "completed".data := by subst hact; decide
    rw [if_pos hact, if_neg hcomp]
    by_cases hs : 0 < (jsTrim search).length
    · rw [if_pos hs, filter_filter_comm]
      exact List.filter_congr fun t _ => by
        simp only [modeKeeps, searchKeeps]
        rw [if_pos hact, if_pos hs]
    · rw [if_neg hs]
      exact List.filter_congr fun t _ => by
        simp only [modeKeeps, searchKeeps]
        rw [if_pos hact, if_neg hs, Bool.and_true]
  · rw [if_neg hact]
    by_cases hcomp : filter = "completed".data
    · rw [if_pos hcomp]
      by_cases hs : 0 < (jsTrim search).length
      · rw [if_pos hs, filter_filter_comm]
        exact List.filter_congr fun t _ => by
          simp only [modeKeeps, searchKeeps]
          rw [if_neg hact, if_pos hcomp, if_pos hs]
      · rw [if_neg hs]
        exact List.filter_congr fun t _ => by
          simp only [modeKeeps, searchKeeps]
          rw [if_neg hact, if_pos hcomp, if_neg hs, Bool.and_true]
    · rw [if_neg hcomp]
      by_cases hs : 0 < (jsTrim search).length
      · rw [if_pos hs]
        exact List.filter_congr fun t _ => by
          simp only [modeKeeps, searchKeeps]
          rw [if_neg hact, if_neg hcomp, if_pos hs, Bool.true_and]
      · rw [if_neg hs]
        have : (fun t : Task => modeKeeps filter t && searchKeeps search t)
            = fun _ => true := by
          funext t
          simp only [modeKeeps, searchKeeps]
          rw [if_neg hact, if_neg hcomp, if_neg hs, Bool.and_true]
        rw [this, List.filter_true]

/-- C6: persistence round trip — loading immediately after persisting any
valid collection reproduces the collection unchanged. -/
theorem C6_persist_load_roundtrip (T : List Task) :
    load (some (persist T)) = some T :=
  load_persist T

/-- C7: in every reachable collection state, every stored task's text is
non-empty, carries no surrounding whitespace, and is at most 120 characters
long; the invariant is preserved by create, rename, toggle, delete and by
reloading persisted state. -/
theorem C7_text_invariant {T : List Task} (h : Reachable T) :
    ∀ t ∈ T, TextOk t := by
  induction h with
  | init => intro t ht; cases ht
  | create now input hin h ih =>
    intro t ht
    unfold handleAddTask at ht
    by_cases hg : (jsTrim input).length = 0
    · rw [if_pos hg] at ht; exact ih t ht
    · rw [if_neg hg] at ht
      rcases List.mem_append.mp ht with hmem | hmem
      · exact ih t hmem
      · rw [List.mem_singleton] at hmem
        subst hmem
        exact ⟨fun hnil => hg (by rw [show jsTrim input = [] from hnil]; rfl),
          jsTrim_idem input,
          le_trans (jsTrim_length_le input) hin⟩
  | rename editingId editInput hin h ih =>
    intro t ht
    unfold handleUpdateTask at ht
    by_cases hg : (jsTrim editInput).length = 0
    · rw [if_pos hg] at ht; exact ih t ht
    · rw [if_neg hg] at ht
      obtain ⟨u, hu, hut⟩ := List.mem_map.mp ht
      by_cases hid : u.id = editingId
      · rw [if_pos hid] at hut
        subst hut
        exact ⟨fun hnil => hg (by rw [show jsTrim editInput = [] from hnil]; rfl),
          jsTrim_idem editInput, le_trans (jsTrim_length_le editInput) hin⟩
      · rw [if_neg hid] at hut
        subst hut
        exact ih u hu
  | toggle id h ih =>
    intro t ht
    obtain ⟨u, hu, hut⟩ := List.mem_map.mp ht
    by_cases hid : u.id = id
    · rw [if_pos hid] at hut
      subst hut
      exact ih u hu
    · rw [if_neg hid] at hut
      subst hut
      exact ih u hu
  | del id h ih =>
    intro t ht
    exact ih t (List.mem_of_mem_filter ht)
  | reload h hload ih =>
    rw [show _ = _ from (Option.some_inj).mp ((load_persist _).symm.trans hload)] at ih
    exact ih

theorem C7_text_invariant_witness :
    TextOk { id := 1, text := "hi".data, completed := false } :=
  C7_text_invariant
    (Reachable.create 1 (" hi ".data) (by decide) Reachable.init) _ (by decide)

/-- C8: rename with a non-empty trimmed text keeps size and order, maps the
matching task to the same record with only `text` replaced by the trimmed
value (id and completed untouched), keeps every other task entirely
unchanged, and is the identity when no task carries the target id. -/
theorem C8_rename_frame (T : List Task) (editingId : Nat) (raw : JStr)
    (h : jsTrim raw ≠ []) :
    (handleUpdateTask editingId raw T).length = T.length ∧
    (∀ i : Nat, (handleUpdateTask editingId raw T)[i]?
        = (T[i]?).map fun t =>
            if t.id = editingId then { t with text := jsTrim raw } else t) ∧
    ((∀ t ∈ T, t.id ≠ editingId) → handleUpdateTask editingId raw T = T) := by
  have hg : ¬ (jsTrim raw).length = 0 := by simpa [List.length_eq_zero] using h
  unfold handleUpdateTask
  rw [if_neg hg]
  refine ⟨List.length_map _ _, fun i => List.getElem?_map _ _ _, fun hnone => ?_⟩
  calc T.map (fun t => if t.id = editingId then { t with text := jsTrim raw } else t)
      = T.map id := List.map_congr_left fun t ht => by
        rw [if_neg (hnone t ht)]; rfl
    _ = T := List.map_id T

theorem C8_rename_frame_witness :
    jsTrim (" x ".data) ≠ [] ∧
    ((handleUpdateTask 2 (" x ".data)
        [{ id := 1, text := "a".data, completed := false },
         { id := 2, text := "b".data, completed := true }]).length
      = ([{ id := 1, text := "a".data, completed := false },
          { id := 2, text := "b".data, completed := true }] : List Task).length ∧
    (∀ i : Nat, (handleUpdateTask 2 (" x ".data)
        [{ id := 1, text := "a".data, completed := false },
         { id := 2, text := "b".data, completed := true }])[i]?
        = (([{ id := 1, text := "a".data, completed := false },
             { id := 2, text := "b".data, completed := true }] : List Task)[i]?).map
            fun t => if t.id = 2 then { t with text := jsTrim (" x ".data) } else t) ∧
    ((∀ t ∈ ([{ id := 1, text := "a".data, completed := false },
              { id := 2, text := "b".data, completed := true }] : List Task),
        t.id ≠ 2) →
      handleUpdateTask 2 (" x ".data)
        [{ id := 1, text := "a".data, completed := false },
         { id := 2, text := "b".data, completed := true }]
      = [{ id := 1, text := "a".data, completed := false },
         { id := 2, text := "b".data, completed := true }])) :=
  ⟨by decide, C8_rename_frame _ 2 (" x ".data) (by decide)⟩

/-- C9: toggling the same id twice in succession restores the collection
exactly — in particular the targeted task's `completed` returns to its
original value and no other field or task changes. -/
theorem C9_toggle_involution (id : Nat) (T : List Task) :
    handleToggleComplete id (handleToggleComplete id T) = T := by
  unfold handleToggleComplete
  rw [List.map_map]
  exact List.map_id'' (fun t => by
    cases t with
    | mk i s c => by_cases h : i = id <;> simp [h, Bool.not_not]) T

/-- C10: the id-targeted operations act on every task whose id equals the
argument, not only the first match: at every index holding a matching task,
rename rewrites the text and toggle flips `completed`, and delete removes
every matching task while keeping every non-matching one. -/
theorem C10_operations_hit_every_match (T : List Task) (id : Nat) (raw : JStr)
    (h : jsTrim raw ≠ []) :
    (∀ i : Nat, ∀ t : Task, T[i]? = some t → t.id = id →
        (handleUpdateTask id raw T)[i]? = some { t with text := jsTrim raw } ∧
        (handleToggleComplete id T)[i]? = some { t with completed := !t.completed }) ∧
    (∀ t ∈ handleDeleteTask id T, t.id ≠ id) ∧
    (∀ t ∈ T, t.id ≠ id → t ∈ handleDeleteTask id T) := by
  have hg : ¬ (jsTrim raw).length = 0 := by simpa [List.length_eq_zero] using h
  refine ⟨fun i t hit hid => ⟨?_, ?_⟩, fun t ht => ?_, fun t ht hid => ?_⟩
  · unfold handleUpdateTask
    rw [if_neg hg, List.getElem?_map, hit]
    simp [hid]
  · unfold handleToggleComplete
    rw [List.getElem?_map, hit]
    simp [hid]
  · have := (List.mem_filter.mp ht).2
    simpa using this
  · exact List.mem_filter.mpr ⟨ht, by simpa using hid⟩

theorem C10_operations_hit_every_match_witness :
    jsTrim ("x".data) ≠ [] ∧
    ((∀ i : Nat, ∀ t : Task,
        ([{ id := 7, text := "a".data, completed := false },
          { id := 7, text := "b".data, completed := true }] : List Task)[i]? = some t →
        t.id = 7 →
        (handleUpdateTask 7 ("x".data)
            [{ id := 7, text := "a".data, completed := false },
             { id := 7, text := "b".data, completed := true }])[i]?
          = some { t with text := jsTrim ("x".data) } ∧
        (handleToggleComplete 7
            [{ id := 7, text := "a".data, completed := false },
             { id := 7, text := "b".data, completed := true }])[i]?
          = some { t with completed := !t.completed }) ∧
    (∀ t ∈ handleDeleteTask 7
        [{ id := 7, text := "a".data, completed := false },
         { id := 7, text := "b".data, completed := true }], t.id ≠ 7) ∧
    (∀ t ∈ ([{ id := 7, text := "a".data, completed := false },
             { id := 7, text := "b".data, completed := true }] : List Task),
        t.id ≠ 7 → t ∈ handleDeleteTask 7
          [{ id := 7, text := "a".data, completed := false },
           { id := 7, text := "b".data, completed := true }])) :=
  ⟨by decide, C10_operations_hit_every_match _ 7 ("x".data) (by decide)⟩

end Todo
